import Mathlib

/-!
Verification of the social-graph generator core: the user segmenter
(`scripts/core/segmenter.py`) and the three-phase relationship generator
(`scripts/core/generator.py`), with the tunable constants of
`scripts/core/config.py` embedded as exact rationals.
-/

namespace SocialGraph

/-- Python `int(x)` applied to a nonnegative rational (`int` truncates toward
zero, which is the floor for nonnegative arguments), returned as a natural
number.  The decimal ratio literals of `config.py` are embedded as exact
rationals. -/
def pyInt (q : ℚ) : ℕ := (Int.floor q).toNat

/-- config.USER_TIER_RATIOS.  The generator reads only the keys
"small", "medium" and "big" (the "top" entry is 0.0, and no other key is
ever looked up), so the dictionary is embedded as a total function that is
0 outside those keys. -/
def USER_TIER_RATIOS (t : String) : ℚ :=
  if t = "small" then 85 / 100
  else if t = "medium" then 14 / 100
  else if t = "big" then 1 / 100
  else 0

/-- config.FOLLOWER_RATIOS: pairs (min_percentage, max_percentage);
`none` models a key that is not in the dict. -/
def FOLLOWER_RATIOS (t : String) : Option (ℚ × ℚ) :=
  if t = "small" then some (2 / 10000, 2 / 100)
  else if t = "medium" then some (2 / 100, 50 / 100)
  else if t = "big" then some (50 / 100, 5)
  else if t = "top" then some (0, 0)
  else none

/-- config.FOLLOWER_ABSOLUTE_MINIMUMS (read only at the four tier keys). -/
def FOLLOWER_ABSOLUTE_MINIMUMS (t : String) : ℕ :=
  if t = "small" then 10
  else if t = "medium" then 100
  else if t = "big" then 50000
  else 0

/-- config.FOLLOWING_RATIOS: pairs (min_percentage, max_percentage);
`none` models a key that is not in the dict. -/
def FOLLOWING_RATIOS (t : String) : Option (ℚ × ℚ) :=
  if t = "small" then some (1 / 100, 4 / 100)
  else if t = "medium" then some (2 / 100, 10 / 100)
  else if t = "big" then some (1 / 1000, 4 / 1000)
  else if t = "top" then some (0, 0)
  else none

/-- config.FOLLOWING_ABSOLUTE_MINIMUMS (read only at the four tier keys). -/
def FOLLOWING_ABSOLUTE_MINIMUMS (t : String) : ℕ :=
  if t = "small" then 50
  else if t = "medium" then 100
  else if t = "big" then 50
  else 0

/-- config.FOLLOWING_ABSOLUTE_MAXIMUMS (read only at the four tier keys). -/
def FOLLOWING_ABSOLUTE_MAXIMUMS (t : String) : ℕ :=
  if t = "small" then 200
  else if t = "medium" then 500
  else if t = "big" then 200
  else 0

/-- config.SEGMENTATION_SEED. -/
def SEGMENTATION_SEED : Option ℕ := some 42

/-- config.MAX_FOLLOWEE_SELECTION_ATTEMPTS. -/
def MAX_FOLLOWEE_SELECTION_ATTEMPTS : ℕ := 5

/-- `UserSegmentation.__init__` stores the population size; the four segment
counts are the derived attributes computed there. -/
structure UserSegmentation where
  total_users : ℕ
deriving DecidableEq

/-- `self.small_count = int(total_users * config.USER_TIER_RATIOS["small"])`. -/
def UserSegmentation.small_count (s : UserSegmentation) : ℕ :=
  pyInt (s.total_users * USER_TIER_RATIOS "small")

/-- `self.medium_count = int(total_users * config.USER_TIER_RATIOS["medium"])`. -/
def UserSegmentation.medium_count (s : UserSegmentation) : ℕ :=
  pyInt (s.total_users * USER_TIER_RATIOS "medium")

/-- `self.big_count = int(total_users * config.USER_TIER_RATIOS["big"])`. -/
def UserSegmentation.big_count (s : UserSegmentation) : ℕ :=
  pyInt (s.total_users * USER_TIER_RATIOS "big")

/-- `self.top_count = max(1, total_users - small_count - medium_count - big_count)`;
Python subtraction is integer subtraction, so it is computed in `ℤ` and the
(provably nonnegative) result converted back to `ℕ`. -/
def UserSegmentation.top_count (s : UserSegmentation) : ℕ :=
  (max 1 ((s.total_users : ℤ) - s.small_count - s.medium_count - s.big_count)).toNat

/-- `UserSegmentation.get_follower_range`. -/
def UserSegmentation.get_follower_range (s : UserSegmentation) (user_type : String) :
    ℕ × ℕ :=
  match FOLLOWER_RATIOS user_type with
  | none => (0, 0)
  | some (rlo, rhi) =>
    let abs_min := FOLLOWER_ABSOLUTE_MINIMUMS user_type
    let min_followers := max abs_min (pyInt (s.total_users * rlo))
    let max_followers := max (min_followers + 1) (pyInt (s.total_users * rhi))
    (min_followers, max_followers)

/-- `UserSegmentation.get_following_range` (like the follower range, but with
the absolute maximum cap applied at the end). -/
def UserSegmentation.get_following_range (s : UserSegmentation) (user_type : String) :
    ℕ × ℕ :=
  match FOLLOWING_RATIOS user_type with
  | none => (0, 0)
  | some (rlo, rhi) =>
    let abs_min := FOLLOWING_ABSOLUTE_MINIMUMS user_type
    let abs_max := FOLLOWING_ABSOLUTE_MAXIMUMS user_type
    let min_following := max abs_min (pyInt (s.total_users * rlo))
    let max_following := max (min_following + 1) (pyInt (s.total_users * rhi))
    (min_following, min max_following abs_max)

/-! Evaluation lemmas turning the rational-floor arithmetic of the embedding
into plain natural-number division. -/

theorem pyInt_cast_mul_div (n a b : ℕ) :
    pyInt ((n : ℚ) * ((a : ℚ) / (b : ℚ))) = n * a / b := by
  unfold pyInt
  rw [show ((n : ℚ) * ((a : ℚ) / (b : ℚ))) = (((n * a : ℕ) : ℚ) / ((b : ℕ) : ℚ)) by
    push_cast; ring]
  rw [Int.floor_toNat, Nat.floor_div_eq_div]

theorem small_count_eq (s : UserSegmentation) :
    s.small_count = s.total_users * 85 / 100 := by
  have h : USER_TIER_RATIOS "small" = ((85 : ℕ) : ℚ) / ((100 : ℕ) : ℚ) := by
    unfold USER_TIER_RATIOS
    rw [if_pos rfl]; norm_num
  unfold UserSegmentation.small_count
  rw [h, pyInt_cast_mul_div]

theorem medium_count_eq (s : UserSegmentation) :
    s.medium_count = s.total_users * 14 / 100 := by
  have h : USER_TIER_RATIOS "medium" = ((14 : ℕ) : ℚ) / ((100 : ℕ) : ℚ) := by
    unfold USER_TIER_RATIOS
    rw [if_neg (by decide), if_pos rfl]; norm_num
  unfold UserSegmentation.medium_count
  rw [h, pyInt_cast_mul_div]

theorem big_count_eq (s : UserSegmentation) :
    s.big_count = s.total_users * 1 / 100 := by
  have h : USER_TIER_RATIOS "big" = ((1 : ℕ) : ℚ) / ((100 : ℕ) : ℚ) := by
    unfold USER_TIER_RATIOS
    rw [if_neg (by decide), if_neg (by decide), if_pos rfl]; norm_num
  unfold UserSegmentation.big_count
  rw [h, pyInt_cast_mul_div]

theorem counts_le (s : UserSegmentation) :
    s.small_count + s.medium_count + s.big_count ≤ s.total_users := by
  rw [small_count_eq, medium_count_eq, big_count_eq]
  omega

theorem top_count_eq (s : UserSegmentation) :
    s.top_count = max 1 (s.total_users - (s.small_count + s.medium_count + s.big_count)) := by
  have h := counts_le s
  unfold UserSegmentation.top_count
  omega

theorem pyInt_numeral (n a b : ℕ) (q : ℚ) (h : ((a : ℚ) / (b : ℚ)) = q) :
    pyInt ((n : ℚ) * q) = n * a / b := by
  rw [← h]
  exact pyInt_cast_mul_div n a b

theorem pyInt_zero : pyInt 0 = 0 := rfl

theorem follower_range_small (s : UserSegmentation) :
    s.get_follower_range "small" =
      (max 10 (s.total_users * 2 / 10000),
       max (max 10 (s.total_users * 2 / 10000) + 1) (s.total_users * 2 / 100)) := by
  have h1 : FOLLOWER_RATIOS "small" = some (2 / 10000, 2 / 100) := by
    unfold FOLLOWER_RATIOS; rw [if_pos rfl]
  have e1 := pyInt_numeral s.total_users 2 10000 (2 / 10000) (by norm_num)
  have e2 := pyInt_numeral s.total_users 2 100 (2 / 100) (by norm_num)
  unfold UserSegmentation.get_follower_range
  rw [h1]
  simp [FOLLOWER_ABSOLUTE_MINIMUMS, e1, e2]

theorem follower_range_medium (s : UserSegmentation) :
    s.get_follower_range "medium" =
      (max 100 (s.total_users * 2 / 100),
       max (max 100 (s.total_users * 2 / 100) + 1) (s.total_users * 50 / 100)) := by
  have h1 : FOLLOWER_RATIOS "medium" = some (2 / 100, 50 / 100) := by
    unfold FOLLOWER_RATIOS; rw [if_neg (by decide), if_pos rfl]
  have e1 := pyInt_numeral s.total_users 2 100 (2 / 100) (by norm_num)
  have e2 := pyInt_numeral s.total_users 50 100 (50 / 100) (by norm_num)
  unfold UserSegmentation.get_follower_range
  rw [h1]
  simp [FOLLOWER_ABSOLUTE_MINIMUMS, e1, e2]

theorem follower_range_big (s : UserSegmentation) :
    s.get_follower_range "big" =
      (max 50000 (s.total_users * 50 / 100),
       max (max 50000 (s.total_users * 50 / 100) + 1) (s.total_users * 5)) := by
  have h1 : FOLLOWER_RATIOS "big" = some (50 / 100, 5) := by
    unfold FOLLOWER_RATIOS; rw [if_neg (by decide), if_neg (by decide), if_pos rfl]
  have e1 := pyInt_numeral s.total_users 50 100 (50 / 100) (by norm_num)
  have e2 : pyInt ((s.total_users : ℚ) * 5) = s.total_users * 5 := by
    have := pyInt_numeral s.total_users 5 1 5 (by norm_num)
    simpa using this
  unfold UserSegmentation.get_follower_range
  rw [h1]
  simp [FOLLOWER_ABSOLUTE_MINIMUMS, e1, e2]

theorem follower_range_top (s : UserSegmentation) :
    s.get_follower_range "top" = (0, 1) := by
  have h1 : FOLLOWER_RATIOS "top" = some (0, 0) := by
    unfold FOLLOWER_RATIOS
    rw [if_neg (by decide), if_neg (by decide), if_neg (by decide), if_pos rfl]
  unfold UserSegmentation.get_follower_range
  rw [h1]
  simp [FOLLOWER_ABSOLUTE_MINIMUMS, pyInt_zero]

theorem following_range_small (s : UserSegmentation) :
    s.get_following_range "small" =
      (max 50 (s.total_users * 1 / 100),
       min (max (max 50 (s.total_users * 1 / 100) + 1) (s.total_users * 4 / 100)) 200) := by
  have h1 : FOLLOWING_RATIOS "small" = some (1 / 100, 4 / 100) := by
    unfold FOLLOWING_RATIOS; rw [if_pos rfl]
  have e1 := pyInt_numeral s.total_users 1 100 (100⁻¹) (by norm_num)
  have e2 := pyInt_numeral s.total_users 4 100 (4 / 100) (by norm_num)
  unfold UserSegmentation.get_following_range
  rw [h1]
  simp [FOLLOWING_ABSOLUTE_MINIMUMS, FOLLOWING_ABSOLUTE_MAXIMUMS, e1, e2]

theorem following_range_medium (s : UserSegmentation) :
    s.get_following_range "medium" =
      (max 100 (s.total_users * 2 / 100),
       min (max (max 100 (s.total_users * 2 / 100) + 1) (s.total_users * 10 / 100)) 500) := by
  have h1 : FOLLOWING_RATIOS "medium" = some (2 / 100, 10 / 100) := by
    unfold FOLLOWING_RATIOS; rw [if_neg (by decide), if_pos rfl]
  have e1 := pyInt_numeral s.total_users 2 100 (2 / 100) (by norm_num)
  have e2 := pyInt_numeral s.total_users 10 100 (10 / 100) (by norm_num)
  unfold UserSegmentation.get_following_range
  rw [h1]
  simp [FOLLOWING_ABSOLUTE_MINIMUMS, FOLLOWING_ABSOLUTE_MAXIMUMS, e1, e2]

theorem following_range_big (s : UserSegmentation) :
    s.get_following_range "big" =
      (max 50 (s.total_users * 1 / 1000),
       min (max (max 50 (s.total_users * 1 / 1000) + 1) (s.total_users * 4 / 1000)) 200) := by
  have h1 : FOLLOWING_RATIOS "big" = some (1 / 1000, 4 / 1000) := by
    unfold FOLLOWING_RATIOS; rw [if_neg (by decide), if_neg (by decide), if_pos rfl]
  have e1 := pyInt_numeral s.total_users 1 1000 (1000⁻¹) (by norm_num)
  have e2 := pyInt_numeral s.total_users 4 1000 (4 / 1000) (by norm_num)
  unfold UserSegmentation.get_following_range
  rw [h1]
  simp [FOLLOWING_ABSOLUTE_MINIMUMS, FOLLOWING_ABSOLUTE_MAXIMUMS, e1, e2]

theorem following_range_top (s : UserSegmentation) :
    s.get_following_range "top" = (0, 0) := by
  have h1 : FOLLOWING_RATIOS "top" = some (0, 0) := by
    unfold FOLLOWING_RATIOS
    rw [if_neg (by decide), if_neg (by decide), if_neg (by decide), if_pos rfl]
  unfold UserSegmentation.get_following_range
  rw [h1]
  simp [FOLLOWING_ABSOLUTE_MINIMUMS, FOLLOWING_ABSOLUTE_MAXIMUMS, pyInt_zero]

/-- C8: for every totalUsers and recognized tier `t`, `get_follower_range`
returns (min, max) with min = max(absoluteFloor t, floor(totalUsers * minRatio t))
and max = max(min + 1, floor(totalUsers * maxRatio t)); for a tier name not in
the configuration it returns (0, 0).  The four recognized tiers are listed with
their configured constants; floors of the exact rational ratios are written as
natural-number divisions. -/
theorem follower_range_spec (s : UserSegmentation) :
    (∀ t, FOLLOWER_RATIOS t = none → s.get_follower_range t = (0, 0)) ∧
    s.get_follower_range "small" =
      (max 10 (s.total_users * 2 / 10000),
       max (max 10 (s.total_users * 2 / 10000) + 1) (s.total_users * 2 / 100)) ∧
    s.get_follower_range "medium" =
      (max 100 (s.total_users * 2 / 100),
       max (max 100 (s.total_users * 2 / 100) + 1) (s.total_users * 50 / 100)) ∧
    s.get_follower_range "big" =
      (max 50000 (s.total_users * 50 / 100),
       max (max 50000 (s.total_users * 50 / 100) + 1) (s.total_users * 5)) ∧
    s.get_follower_range "top" = (max 0 (s.total_users * 0 / 1), max (max 0 (s.total_users * 0 / 1) + 1) (s.total_users * 0 / 1)) := by
  refine ⟨fun t ht => ?_, follower_range_small s, follower_range_medium s,
    follower_range_big s, ?_⟩
  · unfold UserSegmentation.get_follower_range
    rw [ht]
  · rw [follower_range_top s]
    simp

/-- C5: each tier except the last in canonical order gets
floor(totalUsers * ratio(tier)) users, and the last ("top") receives the
remainder floored to at least 1; for totalUsers = 5000 the computed sizes are
exactly small = 4250, medium = 700, big = 50. -/
theorem computeTierSizes_spec :
    (∀ s : UserSegmentation,
        s.small_count = s.total_users * 85 / 100 ∧
        s.medium_count = s.total_users * 14 / 100 ∧
        s.big_count = s.total_users * 1 / 100 ∧
        s.top_count = max 1 (s.total_users - (s.small_count + s.medium_count + s.big_count))) ∧
    (UserSegmentation.mk 5000).small_count = 4250 ∧
    (UserSegmentation.mk 5000).medium_count = 700 ∧
    (UserSegmentation.mk 5000).big_count = 50 := by
  refine ⟨fun s => ⟨small_count_eq s, medium_count_eq s, big_count_eq s, top_count_eq s⟩,
    (small_count_eq _).trans (by norm_num),
    (medium_count_eq _).trans (by norm_num),
    (big_count_eq _).trans (by norm_num)⟩

/-- C3 counterexample: at totalUsers = 100 the four tier counts are
85, 14, 1 and max(1, 0) = 1, summing to 101, not 100. -/
theorem tier_counts_sum_counterexample :
    (UserSegmentation.mk 100).small_count + (UserSegmentation.mk 100).medium_count +
      (UserSegmentation.mk 100).big_count + (UserSegmentation.mk 100).top_count ≠
      (UserSegmentation.mk 100).total_users := by
  have h1 := small_count_eq (UserSegmentation.mk 100)
  have h2 := medium_count_eq (UserSegmentation.mk 100)
  have h3 := big_count_eq (UserSegmentation.mk 100)
  have h4 := top_count_eq (UserSegmentation.mk 100)
  have ht : (UserSegmentation.mk 100).total_users = 100 := rfl
  omega

/-- C3 (amended): when the population size is not an exact multiple of 100
(so the three ratio floors leave a nonzero remainder for the "top" tier), the
four tier counts sum to exactly totalUsers, and each individual count equals
the computeTierSizes formula; at an exact multiple of 100 the "top" floor of 1
makes the sum totalUsers + 1. -/
theorem tier_counts_sum (s : UserSegmentation) (h : ¬ (100 ∣ s.total_users)) :
    s.small_count + s.medium_count + s.big_count + s.top_count = s.total_users ∧
    s.small_count = s.total_users * 85 / 100 ∧
    s.medium_count = s.total_users * 14 / 100 ∧
    s.big_count = s.total_users * 1 / 100 ∧
    s.top_count = s.total_users - (s.small_count + s.medium_count + s.big_count) := by
  have h1 := small_count_eq s
  have h2 := medium_count_eq s
  have h3 := big_count_eq s
  have h4 := top_count_eq s
  have hstrict : s.total_users * 85 / 100 + s.total_users * 14 / 100 +
      s.total_users * 1 / 100 + 1 ≤ s.total_users := by
    have d1 := Nat.add_div (a := s.total_users * 85) (b := s.total_users * 14)
      (show (0 : ℕ) < 100 by norm_num)
    have d2 := Nat.add_div (a := s.total_users * 85 + s.total_users * 14)
      (b := s.total_users * 1) (show (0 : ℕ) < 100 by norm_num)
    have key : s.total_users * 85 + s.total_users * 14 + s.total_users * 1 =
        100 * s.total_users := by ring
    rw [key] at d2
    split_ifs at d1 d2 <;> omega
  refine ⟨by omega, h1, h2, h3, by omega⟩

/-- C3 witness: at totalUsers = 101 the tier counts sum to 101. -/
theorem tier_counts_sum_witness :
    (UserSegmentation.mk 101).small_count + (UserSegmentation.mk 101).medium_count +
      (UserSegmentation.mk 101).big_count + (UserSegmentation.mk 101).top_count =
      (UserSegmentation.mk 101).total_users :=
  (tier_counts_sum (UserSegmentation.mk 101) (by show ¬ (100 ∣ 101); omega)).1

/-- C2 counterexample: at totalUsers = 20100 the "small" following range is
(201, 200) --- the scaled minimum 20100/100 = 201 exceeds the absolute cap
200 --- so min ≤ max fails and `random.randint(min, max)` in Phase A raises. -/
theorem following_range_counterexample :
    ¬ ((UserSegmentation.mk 20100).get_following_range "small").1 ≤
      ((UserSegmentation.mk 20100).get_following_range "small").2 := by
  rw [following_range_small]
  norm_num

/-- C2 (amended): for every recognized tier, min ≤ max holds for the following
range whenever totalUsers ≤ 20099; beyond that the "small" tier's scaled
minimum exceeds its absolute cap of 200 and the uniform draw of Phase A
raises, contradicting the claim's "for every totalUsers". -/
theorem following_range_min_le_max (s : UserSegmentation) (t : String)
    (hN : s.total_users ≤ 20099) (ht : FOLLOWING_RATIOS t ≠ none) :
    (s.get_following_range t).1 ≤ (s.get_following_range t).2 := by
  by_cases h1 : t = "small"
  · subst h1
    rw [following_range_small]
    simp only
    omega
  by_cases h2 : t = "medium"
  · subst h2
    rw [following_range_medium]
    simp only
    omega
  by_cases h3 : t = "big"
  · subst h3
    rw [following_range_big]
    simp only
    omega
  by_cases h4 : t = "top"
  · subst h4
    rw [following_range_top]
  · exfalso
    apply ht
    unfold FOLLOWING_RATIOS
    rw [if_neg h1, if_neg h2, if_neg h3, if_neg h4]

/-- C2 witness: at totalUsers = 5000 the "small" following range has
min ≤ max. -/
theorem following_range_min_le_max_witness :
    ((UserSegmentation.mk 5000).get_following_range "small").1 ≤
      ((UserSegmentation.mk 5000).get_following_range "small").2 :=
  following_range_min_le_max (UserSegmentation.mk 5000) "small" (by norm_num)
    (by unfold FOLLOWING_RATIOS; simp)

/-- Modelled from the spec: the state of Python's global `random` generator
(standard library, not part of src/).  The spec needs only that seeding makes
the subsequent shuffle "a seeded pseudo-random permutation" --- a deterministic
function of the seed --- so the generator is modelled as a single machine word
stepped by a linear congruential update. -/
structure RngState where
  val : ℕ
deriving DecidableEq

/-- One step of the modelled pseudo-random generator. -/
def lcgNext (s : ℕ) : ℕ := (6364136223846793005 * s + 1442695040888963407) % (2 ^ 64)

/-- Modelled from the spec: `random.seed(seed)` --- the generator state becomes
a pure function of the seed. -/
def seedState (seed : ℕ) : RngState := RngState.mk (lcgNext seed)

/-- Draw an index below `n` from the modelled generator, advancing it. -/
def randBelow (st : RngState) (n : ℕ) : ℕ × RngState :=
  (st.val % n, RngState.mk (lcgNext st.val))

/-- Modelled from the spec: `random.shuffle` (standard library, not in src/)
as a draw-and-remove permutation driven by the modelled generator.  The fuel
argument (instantiated with the list length) only bounds the recursion. -/
def shuffleGo : ℕ → RngState → List ℕ → List ℕ × RngState
  | 0, st, l => (l, st)
  | fuel + 1, st, l =>
    match l with
    | [] => ([], st)
    | x :: xs =>
      let p := randBelow st (x :: xs).length
      let y := (x :: xs).getD p.1 0
      let rest := (x :: xs).eraseIdx p.1
      let q := shuffleGo fuel p.2 rest
      (y :: q.1, q.2)

/-- Modelled from the spec: `random.shuffle(l)` on the current generator
state. -/
def shuffleList (st : RngState) (l : List ℕ) : List ℕ × RngState :=
  shuffleGo l.length st l

/-- The dictionary returned by `segment_users`: the four tier lists in
canonical insertion order small, medium, big, top. -/
structure Segments where
  small : List ℕ
  medium : List ℕ
  big : List ℕ
  top : List ℕ
deriving DecidableEq

/-- `UserSegmentation.segment_users`: seed the global generator when
`SEGMENTATION_SEED` is configured (otherwise use the ambient generator state
`rng`), shuffle a copy of the user-ID list, and slice it contiguously by the
tier counts.  (The re-seeding with fresh entropy after the shuffle only
affects later draws from the global generator, which the segmenter does not
use.) -/
def UserSegmentation.segment_users (s : UserSegmentation) (rng : RngState)
    (user_ids : List ℕ) : Segments :=
  let rng0 := match SEGMENTATION_SEED with
    | some sd => seedState sd
    | none => rng
  let shuffled_users := (shuffleList rng0 user_ids).1
  { small := shuffled_users.take s.small_count
    medium := (shuffled_users.drop s.small_count).take s.medium_count
    big := (shuffled_users.drop (s.small_count + s.medium_count)).take s.big_count
    top := shuffled_users.drop (s.small_count + s.medium_count + s.big_count) }

theorem getD_cons_eraseIdx_perm (l : List ℕ) (i : ℕ) (h : i < l.length) :
    (l.getD i 0 :: l.eraseIdx i).Perm l := by
  induction l generalizing i with
  | nil => simp at h
  | cons a xs ih =>
    cases i with
    | zero => simp
    | succ j =>
      have hj : j < xs.length := by simpa using h
      have step : (xs.getD j 0 :: a :: xs.eraseIdx j).Perm (a :: xs.getD j 0 :: xs.eraseIdx j) :=
        List.Perm.swap a (xs.getD j 0) (xs.eraseIdx j)
      exact (step.trans ((ih j hj).cons a)).trans (List.Perm.refl _) |>.trans (List.Perm.refl _)

theorem shuffleGo_perm (fuel : ℕ) (st : RngState) (l : List ℕ) :
    ((shuffleGo fuel st l).1).Perm l := by
  induction fuel generalizing st l with
  | zero => exact List.Perm.refl _
  | succ n ih =>
    cases l with
    | nil => exact List.Perm.refl _
    | cons x xs =>
      have hi : st.val % (x :: xs).length < (x :: xs).length :=
        Nat.mod_lt _ (by simp)
      have h1 := (ih (RngState.mk (lcgNext st.val)) ((x :: xs).eraseIdx (st.val % (x :: xs).length))).cons
        ((x :: xs).getD (st.val % (x :: xs).length) 0)
      exact h1.trans (getD_cons_eraseIdx_perm _ _ hi)

theorem shuffleList_perm (st : RngState) (l : List ℕ) :
    ((shuffleList st l).1).Perm l :=
  shuffleGo_perm l.length st l

theorem take_drop_decomp (L : List ℕ) (a b c : ℕ) :
    L.take a ++ ((L.drop a).take b ++ (((L.drop (a + b)).take c) ++ L.drop (a + b + c))) = L := by
  have h1 : L.drop (a + b) = (L.drop a).drop b := by
    rw [List.drop_drop, Nat.add_comm]
  have h2 : L.drop (a + b + c) = ((L.drop a).drop b).drop c := by
    rw [List.drop_drop, List.drop_drop]
    ring_nf
  rw [h1, h2, List.take_append_drop, List.take_append_drop, List.take_append_drop]

/-- C6: when a segmentation seed is configured (`SEGMENTATION_SEED` is not
`None`), two invocations of `segment_users` with the same user-ID list produce
identical tier partitions, whatever the ambient state of the global random
generator was at each call. -/
theorem segment_users_deterministic (s : UserSegmentation) (user_ids : List ℕ)
    (r1 r2 : RngState) (h : SEGMENTATION_SEED ≠ none) :
    s.segment_users r1 user_ids = s.segment_users r2 user_ids := rfl

/-- C6 witness: a concrete double invocation from two different ambient
generator states. -/
theorem segment_users_deterministic_witness :
    (UserSegmentation.mk 3).segment_users (RngState.mk 0) [1, 2, 3] =
      (UserSegmentation.mk 3).segment_users (RngState.mk 99) [1, 2, 3] :=
  segment_users_deterministic (UserSegmentation.mk 3) [1, 2, 3]
    (RngState.mk 0) (RngState.mk 99) (by unfold SEGMENTATION_SEED; simp)

/-- C10: for a duplicate-free user-ID list of the configured length, the four
tier lists of `segment_users` concatenated in canonical order are a
permutation of the input (no ID dropped), and the four lists are pairwise
disjoint (no ID in two tiers); the stored `top_count` plays no role in the
slicing. -/
theorem segment_users_partition (s : UserSegmentation) (rng : RngState)
    (user_ids : List ℕ) (hnd : user_ids.Nodup)
    (hlen : user_ids.length = s.total_users) :
    ((s.segment_users rng user_ids).small ++ (s.segment_users rng user_ids).medium ++
        (s.segment_users rng user_ids).big ++ (s.segment_users rng user_ids).top).Perm
      user_ids ∧
    (s.segment_users rng user_ids).small.Disjoint (s.segment_users rng user_ids).medium ∧
    (s.segment_users rng user_ids).small.Disjoint (s.segment_users rng user_ids).big ∧
    (s.segment_users rng user_ids).small.Disjoint (s.segment_users rng user_ids).top ∧
    (s.segment_users rng user_ids).medium.Disjoint (s.segment_users rng user_ids).big ∧
    (s.segment_users rng user_ids).medium.Disjoint (s.segment_users rng user_ids).top ∧
    (s.segment_users rng user_ids).big.Disjoint (s.segment_users rng user_ids).top := by
  unfold UserSegmentation.segment_users
  simp only
  set L := (shuffleList (match SEGMENTATION_SEED with
    | some sd => seedState sd
    | none => rng) user_ids).1 with hL
  have hperm : L.Perm user_ids := shuffleList_perm _ _
  have hkey : L.take s.small_count ++ ((L.drop s.small_count).take s.medium_count ++
      (((L.drop (s.small_count + s.medium_count)).take s.big_count) ++
        L.drop (s.small_count + s.medium_count + s.big_count))) = L :=
    take_drop_decomp L _ _ _
  have hcat : L.take s.small_count ++ (L.drop s.small_count).take s.medium_count ++
      ((L.drop (s.small_count + s.medium_count)).take s.big_count) ++
      L.drop (s.small_count + s.medium_count + s.big_count) = L := by
    rw [← hkey]
    simp [List.append_assoc]
  have hnodL : L.Nodup := hperm.symm.nodup hnd
  have hnod2 : (L.take s.small_count ++ ((L.drop s.small_count).take s.medium_count ++
      (((L.drop (s.small_count + s.medium_count)).take s.big_count) ++
        L.drop (s.small_count + s.medium_count + s.big_count)))).Nodup := by
    rw [hkey]; exact hnodL
  rcases List.nodup_append.mp hnod2 with ⟨-, hrest, hd1⟩
  rcases List.nodup_append.mp hrest with ⟨-, hrest2, hd2⟩
  rcases List.nodup_append.mp hrest2 with ⟨-, -, hd3⟩
  rcases List.disjoint_append_right.mp hd1 with ⟨hd1a, hd1r⟩
  rcases List.disjoint_append_right.mp hd1r with ⟨hd1b, hd1c⟩
  rcases List.disjoint_append_right.mp hd2 with ⟨hd2a, hd2b⟩
  refine ⟨?_, hd1a, hd1b, hd1c, hd2a, hd2b, hd3⟩
  rw [hcat]
  exact hperm

/-- C10 witness: a concrete partition of [1, 2, 3]. -/
theorem segment_users_partition_witness :
    ((UserSegmentation.mk 3).segment_users (RngState.mk 0) [1, 2, 3]).small ++
        ((UserSegmentation.mk 3).segment_users (RngState.mk 0) [1, 2, 3]).medium ++
        ((UserSegmentation.mk 3).segment_users (RngState.mk 0) [1, 2, 3]).big ++
        ((UserSegmentation.mk 3).segment_users (RngState.mk 0) [1, 2, 3]).top |>.Perm
      [1, 2, 3] :=
  (segment_users_partition (UserSegmentation.mk 3) (RngState.mk 0) [1, 2, 3]
    (by decide) rfl).1

/-!
The relationship generator (`scripts/core/generator.py`).  Its shared mutable
state is the edge set and the two `defaultdict(set)` adjacency views.  Every
random draw of the source (`random.randint`, `random.choices`,
`random.sample`) is modelled by an oracle parameter supplying the drawn
value; theorems quantify over all oracles, and hypotheses state exactly the
contract of the corresponding library call where a claim needs it.
-/

/-- The shared mutable state of `RelationshipGenerator`. -/
structure GenState where
  relationships : Finset (ℕ × ℕ)
  follower_map : ℕ → Finset ℕ
  following_map : ℕ → Finset ℕ

/-- The generator's initial state (`__init__`): all three structures empty. -/
def emptyState : GenState :=
  GenState.mk ∅ (fun _ => ∅) (fun _ => ∅)

/-- The guarded edge addition of Phase A and Phase C padding: if the pair is
not already an edge, add it to the edge set, to `follower_map[followee]` and
to `following_map[follower]`. -/
def addRel (follower_id followee_id : ℕ) (s : GenState) : GenState :=
  if (follower_id, followee_id) ∈ s.relationships then s
  else
    GenState.mk (insert (follower_id, followee_id) s.relationships)
      (fun u => if u = followee_id then insert follower_id (s.follower_map u)
        else s.follower_map u)
      (fun u => if u = follower_id then insert followee_id (s.following_map u)
        else s.following_map u)

/-- The edge removal of Phase B and Phase C trimming: `discard` the pair from
the edge set and from both adjacency sets. -/
def removeRel (follower_id followee_id : ℕ) (s : GenState) : GenState :=
  GenState.mk (s.relationships.erase (follower_id, followee_id))
    (fun u => if u = followee_id then (s.follower_map u).erase follower_id
      else s.follower_map u)
    (fun u => if u = follower_id then (s.following_map u).erase followee_id
      else s.following_map u)

/-- The inner `for cand in batch` loop of `generate_followers_first`: skip
the user itself, accumulate distinct candidates (the Python set `selected` is
modelled as a duplicate-free list), break once the target `k` is reached. -/
def addCands (follower_id k : ℕ) : List ℕ → List ℕ → List ℕ
  | selected, [] => selected
  | selected, cand :: batch =>
    if cand = follower_id then addCands follower_id k selected batch
    else
      let selected' := if cand ∈ selected then selected else selected ++ [cand]
      if k ≤ selected'.length then selected'
      else addCands follower_id k selected' batch

/-- The `while len(selected) < k and attempts < cap` loop of
`generate_followers_first`.  The batches drawn by `random.choices` are
supplied by the oracle `batches`, one per attempt index; `fuel` counts the
attempts still allowed, starting from the configured cap. -/
def selectLoop (batches : ℕ → List ℕ) (follower_id k : ℕ) :
    ℕ → ℕ → List ℕ → List ℕ
  | 0, _, selected => selected
  | fuel + 1, attempts, selected =>
    if selected.length < k then
      selectLoop batches follower_id k fuel (attempts + 1)
        (addCands follower_id k selected (batches attempts))
    else selected

/-- The whole candidate-selection block for one follower. -/
def selectFollowees (batches : ℕ → List ℕ) (follower_id k : ℕ) : List ℕ :=
  selectLoop batches follower_id k MAX_FOLLOWEE_SELECTION_ATTEMPTS 0 []

/-- `[u for tier_list in self.segments.values() for u in tier_list]`. -/
def allUsersOf (segs : List (String × List ℕ)) : List ℕ :=
  (segs.map Prod.snd).flatten

/-- The per-follower body of `generate_followers_first`.  The per-user
`randint` over the tier's following range is supplied by `targetA`; the tier
weights only shape the distribution of the `random.choices` draws, which the
batch oracle models, so neither appears in the state transition. -/
def phaseA_user (targetA : ℕ → ℕ) (batches : ℕ → ℕ → List ℕ)
    (st : GenState) (follower_id : ℕ) : GenState :=
  (selectFollowees (batches follower_id) follower_id (targetA follower_id)).foldl
    (fun st2 followee_id => addRel follower_id followee_id st2) st

/-- Phase A, `generate_followers_first`. -/
def generate_followers_first (segs : List (String × List ℕ))
    (targetA : ℕ → ℕ) (batches : ℕ → ℕ → List ℕ) (s : GenState) : GenState :=
  (allUsersOf segs).foldl (phaseA_user targetA batches) s

/-- The per-user body of `enforce_following_limits` for a tier whose
following-range maximum is `max_following`: when strictly above the maximum,
draw a target (`targetB` models the `randint`) and remove the sampled excess
outgoing edges (`sampleB` models `random.sample` on the current following
list and the excess size). -/
def phaseB_user (max_following : ℕ) (targetB : ℕ → ℕ)
    (sampleB : ℕ → List ℕ → ℕ → List ℕ) (st : GenState) (user_id : ℕ) : GenState :=
  let current_following := (st.following_map user_id).card
  if max_following < current_following then
    let excess := current_following - targetB user_id
    if 0 < excess then
      (sampleB user_id ((st.following_map user_id).sort (· ≤ ·)) excess).foldl
        (fun st2 followee_id => removeRel user_id followee_id st2) st
    else st
  else st

/-- Phase B, `enforce_following_limits`. -/
def enforce_following_limits (segs : List (String × List ℕ)) (seg : UserSegmentation)
    (targetB : ℕ → ℕ) (sampleB : ℕ → List ℕ → ℕ → List ℕ) (s : GenState) : GenState :=
  segs.foldl (fun st p =>
    p.2.foldl (phaseB_user (seg.get_following_range p.1).2 targetB sampleB) st) s

/-- The per-user body of `ensure_minimum_followers`: draw the individual
in-degree target (`targetC` models the `randint` over the tier's follower
range), trim a random sample of excess incoming edges when above it
(`sampleTrim` models `random.sample`), pad from the candidate pool when below
it (`samplePad` models `random.sample` on the pool and the clamped size). -/
def phaseC_user (all_users : List ℕ) (targetC : ℕ → ℕ)
    (sampleTrim samplePad : ℕ → List ℕ → ℕ → List ℕ)
    (st : GenState) (uid : ℕ) : GenState :=
  let current := (st.follower_map uid).card
  let target := targetC uid
  if target < current then
    (sampleTrim uid ((st.follower_map uid).sort (· ≤ ·)) (current - target)).foldl
      (fun st2 follower_id => removeRel follower_id uid st2) st
  else if current < target then
    let candidates := all_users.filter (fun c => c ≠ uid ∧ c ∉ st.follower_map uid)
    if candidates = [] then st
    else
      (samplePad uid candidates (min (target - current) candidates.length)).foldl
        (fun st2 fid => addRel fid uid st2) st
  else st

/-- Phase C, `ensure_minimum_followers`: tiers whose follower range is the
degenerate (0, 0) (tier names outside the configuration) are skipped. -/
def ensure_minimum_followers (segs : List (String × List ℕ)) (seg : UserSegmentation)
    (targetC : ℕ → ℕ) (sampleTrim samplePad : ℕ → List ℕ → ℕ → List ℕ)
    (s : GenState) : GenState :=
  segs.foldl (fun st p =>
    if seg.get_follower_range p.1 = (0, 0) then st
    else p.2.foldl (phaseC_user (allUsersOf segs) targetC sampleTrim samplePad) st) s

/-- Invariant I1, three-way consistency: a pair (f, t) is an edge iff f is in
follower_map[t] iff t is in following_map[f]. -/
def Consistent (s : GenState) : Prop :=
  ∀ f t : ℕ, ((f, t) ∈ s.relationships ↔ f ∈ s.follower_map t) ∧
    ((f, t) ∈ s.relationships ↔ t ∈ s.following_map f)

/-- Invariant I2: the edge set has no self-loops. -/
def NoSelfLoops (s : GenState) : Prop :=
  ∀ p ∈ s.relationships, p.1 ≠ p.2

theorem empty_consistent : Consistent emptyState := by
  intro f t
  constructor <;> simp [emptyState]

theorem addRel_consistent (f t : ℕ) (s : GenState) (h : Consistent s) :
    Consistent (addRel f t s) := by
  unfold addRel
  by_cases hmem : (f, t) ∈ s.relationships
  · simpa [hmem] using h
  · simp only [hmem, if_false]
    intro a b
    have h1 := (h a b).1
    have h2 := (h a b).2
    by_cases hbt : b = t <;> by_cases haf : a = f
    · subst hbt; subst haf
      constructor <;> simp
    · subst hbt
      constructor <;>
        simp [Finset.mem_insert, Prod.ext_iff, haf, h1.symm, h2.symm]
    · subst haf
      constructor <;>
        simp [Finset.mem_insert, Prod.ext_iff, hbt, h1.symm, h2.symm]
    · constructor <;>
        simp [Finset.mem_insert, Prod.ext_iff, hbt, haf, h1.symm, h2.symm]

theorem removeRel_consistent (f t : ℕ) (s : GenState) (h : Consistent s) :
    Consistent (removeRel f t s) := by
  unfold removeRel
  intro a b
  have h1 := (h a b).1
  have h2 := (h a b).2
  by_cases hbt : b = t <;> by_cases haf : a = f
  · subst hbt; subst haf
    constructor <;> simp [Finset.mem_erase]
  · subst hbt
    constructor <;>
      simp [Finset.mem_erase, Prod.ext_iff, haf, h1.symm, h2.symm]
  · subst haf
    constructor <;>
      simp [Finset.mem_erase, Prod.ext_iff, hbt, h1.symm, h2.symm]
  · constructor <;>
      simp [Finset.mem_erase, Prod.ext_iff, hbt, haf, h1.symm, h2.symm]

/-- Generic preservation of a predicate along a fold. -/
theorem foldl_preserve {α : Type} (P : GenState → Prop) (f : GenState → α → GenState)
    (h : ∀ st a, P st → P (f st a)) :
    ∀ (l : List α) (st : GenState), P st → P (l.foldl f st) := by
  intro l
  induction l with
  | nil => intro st hst; exact hst
  | cons x xs ih => intro st hst; exact ih _ (h st x hst)

theorem phaseA_user_consistent (targetA : ℕ → ℕ) (batches : ℕ → ℕ → List ℕ)
    (st : GenState) (u : ℕ) (h : Consistent st) :
    Consistent (phaseA_user targetA batches st u) :=
  foldl_preserve Consistent _ (fun st2 b h2 => addRel_consistent u b st2 h2) _ st h

theorem phaseB_user_consistent (m : ℕ) (targetB : ℕ → ℕ)
    (sampleB : ℕ → List ℕ → ℕ → List ℕ) (st : GenState) (u : ℕ) (h : Consistent st) :
    Consistent (phaseB_user m targetB sampleB st u) := by
  unfold phaseB_user
  dsimp only
  split
  · split
    · exact foldl_preserve Consistent _
        (fun st2 b h2 => removeRel_consistent u b st2 h2) _ st h
    · exact h
  · exact h

theorem phaseC_user_consistent (A : List ℕ) (targetC : ℕ → ℕ)
    (sT sP : ℕ → List ℕ → ℕ → List ℕ) (st : GenState) (u : ℕ) (h : Consistent st) :
    Consistent (phaseC_user A targetC sT sP st u) := by
  unfold phaseC_user
  dsimp only
  split
  · exact foldl_preserve Consistent _
      (fun st2 b h2 => removeRel_consistent b u st2 h2) _ st h
  · split
    · split
      · exact h
      · exact foldl_preserve Consistent _
          (fun st2 b h2 => addRel_consistent b u st2 h2) _ st h
    · exact h

theorem generate_followers_first_consistent (segs : List (String × List ℕ))
    (targetA : ℕ → ℕ) (batches : ℕ → ℕ → List ℕ) (s : GenState) (h : Consistent s) :
    Consistent (generate_followers_first segs targetA batches s) :=
  foldl_preserve Consistent _
    (fun st u hst => phaseA_user_consistent targetA batches st u hst) _ s h

theorem enforce_following_limits_consistent (segs : List (String × List ℕ))
    (seg : UserSegmentation) (targetB : ℕ → ℕ) (sampleB : ℕ → List ℕ → ℕ → List ℕ)
    (s : GenState) (h : Consistent s) :
    Consistent (enforce_following_limits segs seg targetB sampleB s) :=
  foldl_preserve Consistent _
    (fun st p hst => foldl_preserve Consistent _
      (fun st2 u h2 => phaseB_user_consistent _ targetB sampleB st2 u h2) _ st hst) _ s h

theorem ensure_minimum_followers_consistent (segs : List (String × List ℕ))
    (seg : UserSegmentation) (targetC : ℕ → ℕ) (sT sP : ℕ → List ℕ → ℕ → List ℕ)
    (s : GenState) (h : Consistent s) :
    Consistent (ensure_minimum_followers segs seg targetC sT sP s) := by
  unfold ensure_minimum_followers
  refine foldl_preserve Consistent _ (fun st p hst => ?_) _ s h
  split
  · exact hst
  · exact foldl_preserve Consistent _
      (fun st2 u h2 => phaseC_user_consistent _ targetC sT sP st2 u h2) _ st hst

/-- C1: three-way consistency (invariant I1).  The initial state satisfies
it; every edge addition and every edge removal (the only mutations any phase
performs) preserves it; and consequently each of the three phases, run from
any consistent state --- in particular every state reachable from the empty
state through the pipeline --- returns a consistent state. -/
theorem three_way_consistency (f t : ℕ) (s : GenState)
    (segs : List (String × List ℕ)) (seg : UserSegmentation)
    (targetA targetB targetC : ℕ → ℕ) (batches : ℕ → ℕ → List ℕ)
    (sampleB sampleTrim samplePad : ℕ → List ℕ → ℕ → List ℕ)
    (h : Consistent s) :
    Consistent emptyState ∧
    Consistent (addRel f t s) ∧
    Consistent (removeRel f t s) ∧
    Consistent (generate_followers_first segs targetA batches s) ∧
    Consistent (enforce_following_limits segs seg targetB sampleB s) ∧
    Consistent (ensure_minimum_followers segs seg targetC sampleTrim samplePad s) :=
  ⟨empty_consistent, addRel_consistent f t s h, removeRel_consistent f t s h,
    generate_followers_first_consistent segs targetA batches s h,
    enforce_following_limits_consistent segs seg targetB sampleB s h,
    ensure_minimum_followers_consistent segs seg targetC sampleTrim samplePad s h⟩

/-- C1 witness: adding the edge (1, 2) to the empty state yields a consistent
state. -/
theorem three_way_consistency_witness : Consistent (addRel 1 2 emptyState) :=
  (three_way_consistency 1 2 emptyState [("small", [1, 2])] (UserSegmentation.mk 2)
    (fun _ => 0) (fun _ => 0) (fun _ => 0) (fun _ _ => []) (fun _ _ _ => [])
    (fun _ _ _ => []) (fun _ _ _ => []) empty_consistent).2.1

theorem empty_noself : NoSelfLoops emptyState := by
  intro p hp
  simp [emptyState] at hp

theorem addRel_noself (f t : ℕ) (s : GenState) (hft : f ≠ t) (h : NoSelfLoops s) :
    NoSelfLoops (addRel f t s) := by
  unfold addRel
  split
  · exact h
  · intro p hp
    rcases Finset.mem_insert.mp hp with rfl | hp'
    · exact hft
    · exact h p hp'

theorem removeRel_noself (f t : ℕ) (s : GenState) (h : NoSelfLoops s) :
    NoSelfLoops (removeRel f t s) := by
  intro p hp
  exact h p (Finset.mem_of_mem_erase hp)

theorem addCands_not_self (fid k : ℕ) (batch : List ℕ) :
    ∀ selected : List ℕ, fid ∉ selected → fid ∉ addCands fid k selected batch := by
  induction batch with
  | nil => intro selected h; simpa [addCands] using h
  | cons c cs ih =>
    intro selected h
    rw [addCands]
    by_cases hc : c = fid
    · rw [if_pos hc]
      exact ih selected h
    · rw [if_neg hc]
      dsimp only
      by_cases hm : c ∈ selected
      · rw [if_pos hm]
        split
        · exact h
        · exact ih selected h
      · rw [if_neg hm]
        have h' : fid ∉ selected ++ [c] := by
          simp only [List.mem_append, List.mem_singleton]
          rintro (hfs | rfl)
          · exact h hfs
          · exact hc rfl
        split
        · exact h'
        · exact ih _ h'

theorem selectLoop_not_self (batches : ℕ → List ℕ) (fid k : ℕ) :
    ∀ (fuel attempts : ℕ) (selected : List ℕ), fid ∉ selected →
      fid ∉ selectLoop batches fid k fuel attempts selected := by
  intro fuel
  induction fuel with
  | zero => intro attempts selected h; simpa [selectLoop] using h
  | succ n ih =>
    intro attempts selected h
    rw [selectLoop]
    split
    · exact ih _ _ (addCands_not_self fid k _ selected h)
    · exact h

theorem selectFollowees_not_self (batches : ℕ → List ℕ) (fid k : ℕ) :
    fid ∉ selectFollowees batches fid k :=
  selectLoop_not_self batches fid k MAX_FOLLOWEE_SELECTION_ATTEMPTS 0 [] (by simp)

/-- Generic preservation of a predicate along a fold, with membership of the
folded element available to the step hypothesis. -/
theorem foldl_preserve_mem {α : Type} (P : GenState → Prop) (f : GenState → α → GenState) :
    ∀ l : List α, (∀ st a, a ∈ l → P st → P (f st a)) →
      ∀ st : GenState, P st → P (l.foldl f st) := by
  intro l
  induction l with
  | nil => intro _ st h; exact h
  | cons x xs ih =>
    intro hstep st h
    exact ih (fun st2 a ha h2 => hstep st2 a (List.mem_cons_of_mem _ ha) h2) _
      (hstep st x (List.mem_cons_self _ _) h)

theorem phaseA_user_noself (targetA : ℕ → ℕ) (batches : ℕ → ℕ → List ℕ)
    (st : GenState) (u : ℕ) (h : NoSelfLoops st) :
    NoSelfLoops (phaseA_user targetA batches st u) := by
  unfold phaseA_user
  refine foldl_preserve_mem NoSelfLoops _ _ (fun st2 b hb h2 => ?_) st h
  refine addRel_noself u b st2 (fun he => ?_) h2
  exact selectFollowees_not_self (batches u) u (targetA u) (he ▸ hb)

theorem phaseB_user_noself (m : ℕ) (targetB : ℕ → ℕ)
    (sampleB : ℕ → List ℕ → ℕ → List ℕ) (st : GenState) (u : ℕ) (h : NoSelfLoops st) :
    NoSelfLoops (phaseB_user m targetB sampleB st u) := by
  unfold phaseB_user
  dsimp only
  split
  · split
    · exact foldl_preserve NoSelfLoops _
        (fun st2 b h2 => removeRel_noself u b st2 h2) _ st h
    · exact h
  · exact h

theorem phaseC_user_noself (A : List ℕ) (targetC : ℕ → ℕ)
    (sT sP : ℕ → List ℕ → ℕ → List ℕ) (st : GenState) (u : ℕ)
    (hP : ∀ v pool k, ∀ x ∈ sP v pool k, x ∈ pool) (h : NoSelfLoops st) :
    NoSelfLoops (phaseC_user A targetC sT sP st u) := by
  unfold phaseC_user
  dsimp only
  split
  · exact foldl_preserve NoSelfLoops _
      (fun st2 b h2 => removeRel_noself b u st2 h2) _ st h
  · split
    · split
      · exact h
      · refine foldl_preserve_mem NoSelfLoops _ _ (fun st2 b hb h2 => ?_) st h
        have hb' := hP _ _ _ b hb
        have hbu : b ≠ u := by
          have hm := List.mem_filter.mp hb'
          have := hm.2
          simp only [decide_eq_true_eq] at this
          exact this.1
        exact addRel_noself b u st2 hbu h2
    · exact h

theorem generate_followers_first_noself (segs : List (String × List ℕ))
    (targetA : ℕ → ℕ) (batches : ℕ → ℕ → List ℕ) (s : GenState) (h : NoSelfLoops s) :
    NoSelfLoops (generate_followers_first segs targetA batches s) :=
  foldl_preserve NoSelfLoops _
    (fun st u hst => phaseA_user_noself targetA batches st u hst) _ s h

theorem enforce_following_limits_noself (segs : List (String × List ℕ))
    (seg : UserSegmentation) (targetB : ℕ → ℕ) (sampleB : ℕ → List ℕ → ℕ → List ℕ)
    (s : GenState) (h : NoSelfLoops s) :
    NoSelfLoops (enforce_following_limits segs seg targetB sampleB s) :=
  foldl_preserve NoSelfLoops _
    (fun st p hst => foldl_preserve NoSelfLoops _
      (fun st2 u h2 => phaseB_user_noself _ targetB sampleB st2 u h2) _ st hst) _ s h

theorem ensure_minimum_followers_noself (segs : List (String × List ℕ))
    (seg : UserSegmentation) (targetC : ℕ → ℕ) (sT sP : ℕ → List ℕ → ℕ → List ℕ)
    (hP : ∀ v pool k, ∀ x ∈ sP v pool k, x ∈ pool) (s : GenState) (h : NoSelfLoops s) :
    NoSelfLoops (ensure_minimum_followers segs seg targetC sT sP s) := by
  unfold ensure_minimum_followers
  refine foldl_preserve NoSelfLoops _ (fun st p hst => ?_) _ s h
  split
  · exact hst
  · exact foldl_preserve NoSelfLoops _
      (fun st2 u h2 => phaseC_user_noself _ targetC sT sP st2 u hP h2) _ st hst

/-- C7: invariant I2, no self-loops.  The empty state has none; every
individual edge addition performed by the phases adds a pair with distinct
endpoints (Phase A filters out the follower itself; Phase C pads only from a
candidate pool that excludes the user being padded, stated as the
`random.sample` subset contract `hP`); removals never create edges.  Hence
every reachable state of the three-phase pipeline, starting from the empty
state, has no edge (u, u). -/
theorem no_self_loops (f t : ℕ) (s : GenState)
    (segs : List (String × List ℕ)) (seg : UserSegmentation)
    (targetA targetB targetC : ℕ → ℕ) (batches : ℕ → ℕ → List ℕ)
    (sampleB sampleTrim samplePad : ℕ → List ℕ → ℕ → List ℕ)
    (hP : ∀ v pool k, ∀ x ∈ samplePad v pool k, x ∈ pool)
    (hft : f ≠ t) (h : NoSelfLoops s) :
    NoSelfLoops emptyState ∧
    NoSelfLoops (addRel f t s) ∧
    NoSelfLoops (removeRel f t s) ∧
    NoSelfLoops (generate_followers_first segs targetA batches s) ∧
    NoSelfLoops (enforce_following_limits segs seg targetB sampleB s) ∧
    NoSelfLoops (ensure_minimum_followers segs seg targetC sampleTrim samplePad s) :=
  ⟨empty_noself, addRel_noself f t s hft h, removeRel_noself f t s h,
    generate_followers_first_noself segs targetA batches s h,
    enforce_following_limits_noself segs seg targetB sampleB s h,
    ensure_minimum_followers_noself segs seg targetC sampleTrim samplePad hP s h⟩

/-- C7 witness: a concrete instance with the `random.sample` oracle taking a
prefix of its pool. -/
theorem no_self_loops_witness : NoSelfLoops (addRel 1 2 emptyState) :=
  (no_self_loops 1 2 emptyState [("small", [1, 2])] (UserSegmentation.mk 2)
    (fun _ => 0) (fun _ => 0) (fun _ => 0) (fun _ _ => []) (fun _ _ _ => [])
    (fun _ _ _ => []) (fun _ pool k => pool.take k)
    (fun _ pool _ _ hx => List.take_subset _ pool hx)
    (by decide) empty_noself).2.1

theorem removeRel_following_frame (f t v : ℕ) (s : GenState) (hv : v ≠ f) :
    (removeRel f t s).following_map v = s.following_map v := by
  unfold removeRel
  simp [hv]

theorem removeFold_following_frame (f v : ℕ) (l : List ℕ) (hv : v ≠ f) :
    ∀ st : GenState,
      ((l.foldl (fun st2 b => removeRel f b st2) st).following_map v = st.following_map v) := by
  induction l with
  | nil => intro st; rfl
  | cons b bs ih =>
    intro st
    rw [List.foldl_cons, ih, removeRel_following_frame f b v st hv]

theorem phaseB_user_following_frame (m : ℕ) (targetB : ℕ → ℕ)
    (sampleB : ℕ → List ℕ → ℕ → List ℕ) (st : GenState) (w v : ℕ) (hv : v ≠ w) :
    (phaseB_user m targetB sampleB st w).following_map v = st.following_map v := by
  unfold phaseB_user
  dsimp only
  split
  · split
    · exact removeFold_following_frame w v _ hv st
    · rfl
  · rfl

theorem phaseB_user_skip (m : ℕ) (targetB : ℕ → ℕ)
    (sampleB : ℕ → List ℕ → ℕ → List ℕ) (st : GenState) (w : ℕ)
    (h : (st.following_map w).card ≤ m) :
    phaseB_user m targetB sampleB st w = st := by
  unfold phaseB_user
  dsimp only
  rw [if_neg (not_lt.mpr h)]

theorem phaseB_tier_frame (targetB : ℕ → ℕ) (sampleB : ℕ → List ℕ → ℕ → List ℕ)
    (u : ℕ) (S0 : Finset ℕ) (m : ℕ) :
    ∀ (users : List ℕ) (st : GenState), st.following_map u = S0 →
      (u ∈ users → S0.card ≤ m) →
      ((users.foldl (phaseB_user m targetB sampleB) st).following_map u = S0) := by
  intro users
  induction users with
  | nil => intro st h0 _; exact h0
  | cons v vs ih =>
    intro st h0 hmem
    rw [List.foldl_cons]
    by_cases hvu : v = u
    · subst hvu
      have hcard : (st.following_map v).card ≤ m := by
        rw [h0]
        exact hmem (List.mem_cons_self _ _)
      rw [phaseB_user_skip m targetB sampleB st v hcard]
      exact ih st h0 (fun hm => hmem (List.mem_cons_of_mem _ hm))
    · have hframe := phaseB_user_following_frame m targetB sampleB st v u
        (fun he => hvu he.symm)
      exact ih _ (hframe.trans h0) (fun hm => hmem (List.mem_cons_of_mem _ hm))

theorem enforce_frame_aux (seg : UserSegmentation) (targetB : ℕ → ℕ)
    (sampleB : ℕ → List ℕ → ℕ → List ℕ) (u : ℕ) (S0 : Finset ℕ) :
    ∀ (tiers : List (String × List ℕ)) (st : GenState), st.following_map u = S0 →
      (∀ p ∈ tiers, u ∈ p.2 → S0.card ≤ (seg.get_following_range p.1).2) →
      ((tiers.foldl (fun st2 p =>
          p.2.foldl (phaseB_user (seg.get_following_range p.1).2 targetB sampleB) st2)
        st).following_map u = S0) := by
  intro tiers
  induction tiers with
  | nil => intro st h0 _; exact h0
  | cons p ps ih =>
    intro st h0 hh
    rw [List.foldl_cons]
    have h1 := phaseB_tier_frame targetB sampleB u S0 (seg.get_following_range p.1).2
      p.2 st h0 (fun hm => hh p (List.mem_cons_self _ _) hm)
    exact ih _ h1 (fun q hq hm => hh q (List.mem_cons_of_mem _ hq) hm)

/-- C9: frame property of Phase B.  A user whose following count at the start
of `enforce_following_limits` is at most the tier's following-range maximum
(for every tier list that contains the user --- with disjoint tiers, the one
tier of the user) has exactly the same following set after the phase as
before it: other users' trims only remove their own outgoing edges, and the
user's own visit takes the untouched branch. -/
theorem phaseB_frame (segs : List (String × List ℕ)) (seg : UserSegmentation)
    (targetB : ℕ → ℕ) (sampleB : ℕ → List ℕ → ℕ → List ℕ) (u : ℕ) (s : GenState)
    (h : ∀ p ∈ segs, u ∈ p.2 →
      (s.following_map u).card ≤ (seg.get_following_range p.1).2) :
    (enforce_following_limits segs seg targetB sampleB s).following_map u =
      s.following_map u := by
  unfold enforce_following_limits
  exact enforce_frame_aux seg targetB sampleB u (s.following_map u) segs s rfl h

/-- C9 witness: a user with an empty following set is untouched by Phase B. -/
theorem phaseB_frame_witness :
    (enforce_following_limits [("small", [1])] (UserSegmentation.mk 1)
        (fun _ => 0) (fun _ _ _ => []) emptyState).following_map 1 =
      emptyState.following_map 1 :=
  phaseB_frame [("small", [1])] (UserSegmentation.mk 1) (fun _ => 0) (fun _ _ _ => [])
    1 emptyState (fun p _ _ => by simp [emptyState])

/-! Phase C postcondition (claim C4).  `FollowerBound` records that every
follower stored anywhere comes from the population and differs from the user
it follows; `SampleOracle` is the contract of `random.sample(pool, k)`: a
duplicate-free selection of `k` elements of the pool. -/

/-- Every recorded follower is a population member distinct from the followed
user. -/
def FollowerBound (A : List ℕ) (s : GenState) : Prop :=
  ∀ u f : ℕ, f ∈ s.follower_map u → f ∈ A ∧ f ≠ u

/-- The contract of `random.sample(pool, k)` on a duplicate-free pool with
`k ≤ len(pool)`: `k` distinct elements of the pool. -/
def SampleOracle (f : ℕ → List ℕ → ℕ → List ℕ) : Prop :=
  ∀ v pool k, pool.Nodup → k ≤ pool.length →
    (f v pool k).Nodup ∧ (f v pool k).length = k ∧ ∀ x ∈ f v pool k, x ∈ pool

theorem empty_followerBound (A : List ℕ) : FollowerBound A emptyState := by
  intro u f hf
  simp [emptyState] at hf

theorem takeSample_spec : SampleOracle (fun _ pool k => pool.take k) := by
  intro v pool k hnd hk
  refine ⟨hnd.sublist (List.take_sublist k pool), ?_, fun x hx => List.take_subset _ _ hx⟩
  rw [List.length_take]
  omega

theorem removeRel_followerBound (A : List ℕ) (f t : ℕ) (s : GenState)
    (h : FollowerBound A s) : FollowerBound A (removeRel f t s) := by
  intro u g hg
  unfold removeRel at hg
  dsimp only at hg
  by_cases hut : u = t
  · rw [if_pos hut] at hg
    exact h u g (Finset.mem_of_mem_erase hg)
  · rw [if_neg hut] at hg
    exact h u g hg

theorem addRel_followerBound (A : List ℕ) (f t : ℕ) (s : GenState)
    (hf : f ∈ A) (hft : f ≠ t) (h : FollowerBound A s) :
    FollowerBound A (addRel f t s) := by
  intro u g hg
  unfold addRel at hg
  split at hg
  · exact h u g hg
  · dsimp only at hg
    by_cases hut : u = t
    · rw [if_pos hut] at hg
      rcases Finset.mem_insert.mp hg with rfl | hg'
      · exact ⟨hf, hut ▸ hft⟩
      · exact h u g hg'
    · rw [if_neg hut] at hg
      exact h u g hg

theorem removeRel_follower_frame (f t v : ℕ) (s : GenState) (hv : v ≠ t) :
    (removeRel f t s).follower_map v = s.follower_map v := by
  unfold removeRel
  simp [hv]

theorem addRel_follower_frame (f t v : ℕ) (s : GenState) (hv : v ≠ t) :
    (addRel f t s).follower_map v = s.follower_map v := by
  unfold addRel
  split
  · rfl
  · simp [hv]

theorem addRel_follower_map_self (b u : ℕ) (s : GenState)
    (hb : (b, u) ∉ s.relationships) :
    (addRel b u s).follower_map u = insert b (s.follower_map u) := by
  unfold addRel
  rw [if_neg hb]
  simp

/-- The fold of the trim loop acts on the trimmed user's follower set as a
fold of erasures. -/
theorem removeFold_follower_map_self (u : ℕ) (l : List ℕ) :
    ∀ st : GenState,
      ((l.foldl (fun st2 b => removeRel b u st2) st).follower_map u =
        l.foldl (fun S b => S.erase b) (st.follower_map u)) := by
  induction l with
  | nil => intro st; rfl
  | cons b bs ih =>
    intro st
    rw [List.foldl_cons, List.foldl_cons, ih]
    congr 1
    unfold removeRel
    simp

theorem card_foldl_erase (l : List ℕ) :
    ∀ S : Finset ℕ, l.Nodup → (∀ x ∈ l, x ∈ S) →
      (l.foldl (fun S b => S.erase b) S).card = S.card - l.length := by
  induction l with
  | nil => intro S _ _; simp
  | cons b bs ih =>
    intro S hnd hsub
    rw [List.foldl_cons]
    have hb : b ∈ S := hsub b (List.mem_cons_self _ _)
    have hnd' := (List.nodup_cons.mp hnd)
    have hsub' : ∀ x ∈ bs, x ∈ S.erase b := fun x hx =>
      Finset.mem_erase.mpr ⟨fun he => hnd'.1 (he ▸ hx), hsub x (List.mem_cons_of_mem _ hx)⟩
    rw [ih (S.erase b) hnd'.2 hsub', Finset.card_erase_of_mem hb]
    have := Finset.card_pos.mpr ⟨b, hb⟩
    simp only [List.length_cons]
    omega

/-- The fold of the pad loop adds exactly the sampled followers: with a
consistent state and fresh, distinct candidates, the padded user's follower
count grows by the sample length. -/
theorem padFold_card (u : ℕ) (l : List ℕ) :
    ∀ st : GenState, Consistent st → l.Nodup → (∀ x ∈ l, x ∉ st.follower_map u) →
      ((l.foldl (fun st2 b => addRel b u st2) st).follower_map u).card =
        (st.follower_map u).card + l.length := by
  induction l with
  | nil => intro st _ _ _; simp
  | cons b bs ih =>
    intro st hc hnd hfresh
    have hbn : b ∉ st.follower_map u := hfresh b (List.mem_cons_self _ _)
    have hrel : (b, u) ∉ st.relationships := fun hr => hbn (((hc b u).1).mp hr)
    have hmap := addRel_follower_map_self b u st hrel
    have hnd' := List.nodup_cons.mp hnd
    rw [List.foldl_cons, ih (addRel b u st) (addRel_consistent b u st hc) hnd'.2
      (fun x hx => by
        rw [hmap]
        intro hmem
        rcases Finset.mem_insert.mp hmem with rfl | hmem'
        · exact hnd'.1 hx
        · exact hfresh x (List.mem_cons_of_mem _ hx) hmem'),
      hmap, Finset.card_insert_of_not_mem hbn, List.length_cons]
    omega

/-- Size of the Phase C candidate pool: the population minus the user and the
user's current followers. -/
theorem candidates_length (A : List ℕ) (u : ℕ) (F : Finset ℕ) (hA : A.Nodup)
    (hu : u ∈ A) (hF : ∀ f ∈ F, f ∈ A ∧ f ≠ u) :
    (A.filter (fun c => c ≠ u ∧ c ∉ F)).length = A.length - 1 - F.card := by
  have hnd : (A.filter (fun c => c ≠ u ∧ c ∉ F)).Nodup := hA.filter _
  have hcard : (A.filter (fun c => c ≠ u ∧ c ∉ F)).toFinset.card =
      (A.filter (fun c => c ≠ u ∧ c ∉ F)).length := List.toFinset_card_of_nodup hnd
  have hset : (A.filter (fun c => c ≠ u ∧ c ∉ F)).toFinset =
      A.toFinset \ insert u F := by
    ext x
    simp only [List.mem_toFinset, List.mem_filter, Finset.mem_sdiff, Finset.mem_insert,
      decide_eq_true_eq]
    tauto
  have hsubset : insert u F ⊆ A.toFinset := by
    intro x hx
    rcases Finset.mem_insert.mp hx with rfl | hx'
    · exact List.mem_toFinset.mpr hu
    · exact List.mem_toFinset.mpr (hF x hx').1
  have huF : u ∉ F := fun hm => (hF u hm).2 rfl
  have : (A.toFinset \ insert u F).card = A.toFinset.card - (insert u F).card :=
    Finset.card_sdiff hsubset
  rw [← hcard, hset, this, Finset.card_insert_of_not_mem huF,
    List.toFinset_card_of_nodup hA]
  omega

/-- Under `FollowerBound`, no user has more than population − 1 followers. -/
theorem follower_card_le (A : List ℕ) (s : GenState) (u : ℕ) (hA : A.Nodup)
    (hu : u ∈ A) (hb : FollowerBound A s) :
    (s.follower_map u).card ≤ A.length - 1 := by
  have hsub : s.follower_map u ⊆ A.toFinset.erase u := fun f hf =>
    Finset.mem_erase.mpr ⟨(hb u f hf).2, List.mem_toFinset.mpr (hb u f hf).1⟩
  have h1 := Finset.card_le_card hsub
  rw [Finset.card_erase_of_mem (List.mem_toFinset.mpr hu),
    List.toFinset_card_of_nodup hA] at h1
  exact h1

theorem removeFold_follower_frame (w v : ℕ) (l : List ℕ) (hv : v ≠ w) :
    ∀ st : GenState,
      ((l.foldl (fun st2 b => removeRel b w st2) st).follower_map v = st.follower_map v) := by
  induction l with
  | nil => intro st; rfl
  | cons b bs ih =>
    intro st
    rw [List.foldl_cons, ih, removeRel_follower_frame b w v st hv]

theorem addFold_follower_frame (w v : ℕ) (l : List ℕ) (hv : v ≠ w) :
    ∀ st : GenState,
      ((l.foldl (fun st2 b => addRel b w st2) st).follower_map v = st.follower_map v) := by
  induction l with
  | nil => intro st; rfl
  | cons b bs ih =>
    intro st
    rw [List.foldl_cons, ih, addRel_follower_frame b w v st hv]

theorem phaseC_user_follower_frame (A : List ℕ) (targetC : ℕ → ℕ)
    (sT sP : ℕ → List ℕ → ℕ → List ℕ) (st : GenState) (w v : ℕ) (hv : v ≠ w) :
    (phaseC_user A targetC sT sP st w).follower_map v = st.follower_map v := by
  unfold phaseC_user
  dsimp only
  split
  · exact removeFold_follower_frame w v _ hv st
  · split
    · split
      · rfl
      · exact addFold_follower_frame w v _ hv st
    · rfl

theorem phaseC_user_inv (A : List ℕ) (targetC : ℕ → ℕ)
    (sT sP : ℕ → List ℕ → ℕ → List ℕ) (hA : A.Nodup) (hP : SampleOracle sP)
    (st : GenState) (u : ℕ) (h : Consistent st ∧ FollowerBound A st) :
    Consistent (phaseC_user A targetC sT sP st u) ∧
      FollowerBound A (phaseC_user A targetC sT sP st u) := by
  unfold phaseC_user
  dsimp only
  split
  · exact foldl_preserve (fun st2 => Consistent st2 ∧ FollowerBound A st2) _
      (fun st2 b h2 => ⟨removeRel_consistent b u st2 h2.1,
        removeRel_followerBound A b u st2 h2.2⟩) _ st h
  · split
    · split
      · exact h
      · refine foldl_preserve_mem (fun st2 => Consistent st2 ∧ FollowerBound A st2) _ _
          (fun st2 b hb2 h2 => ?_) st h
        have hk : min (targetC u - (st.follower_map u).card)
            (A.filter (fun c => c ≠ u ∧ c ∉ st.follower_map u)).length ≤
            (A.filter (fun c => c ≠ u ∧ c ∉ st.follower_map u)).length :=
          min_le_right _ _
        have hsub := (hP u (A.filter (fun c => c ≠ u ∧ c ∉ st.follower_map u)) _
          (hA.filter _) hk).2.2 b hb2
        have hmem := List.mem_filter.mp hsub
        have hprops := hmem.2
        simp only [decide_eq_true_eq] at hprops
        exact ⟨addRel_consistent b u st2 h2.1,
          addRel_followerBound A b u st2 hmem.1 hprops.1 h2.2⟩
    · exact h

/-- The Phase C per-user postcondition: after the user's own visit, the
follower count equals the drawn target, or the candidate pool ran dry and
the count is exactly population − 1 while still short of the target. -/
theorem phaseC_user_post (A : List ℕ) (targetC : ℕ → ℕ)
    (sT sP : ℕ → List ℕ → ℕ → List ℕ) (hT : SampleOracle sT) (hP : SampleOracle sP)
    (st : GenState) (u : ℕ) (hA : A.Nodup) (hu : u ∈ A)
    (h : Consistent st ∧ FollowerBound A st) :
    ((phaseC_user A targetC sT sP st u).follower_map u).card = targetC u ∨
    (((phaseC_user A targetC sT sP st u).follower_map u).card = A.length - 1 ∧
      ((phaseC_user A targetC sT sP st u).follower_map u).card < targetC u) := by
  have hle := follower_card_le A st u hA hu h.2
  unfold phaseC_user
  dsimp only
  by_cases h1 : targetC u < (st.follower_map u).card
  · rw [if_pos h1]
    have hpool : ((st.follower_map u).sort (· ≤ ·)).Nodup := (st.follower_map u).sort_nodup _
    have hplen : ((st.follower_map u).sort (· ≤ ·)).length = (st.follower_map u).card :=
      (st.follower_map u).length_sort _
    have hk : (st.follower_map u).card - targetC u ≤
        ((st.follower_map u).sort (· ≤ ·)).length := by omega
    obtain ⟨hnd, hlen, hsub⟩ := hT u ((st.follower_map u).sort (· ≤ ·))
      ((st.follower_map u).card - targetC u) hpool hk
    rw [removeFold_follower_map_self, card_foldl_erase _ _ hnd
      (fun x hx => (Finset.mem_sort _).mp (hsub x hx)), hlen]
    left
    omega
  · rw [if_neg h1]
    by_cases h2 : (st.follower_map u).card < targetC u
    · rw [if_pos h2]
      have hclen := candidates_length A u (st.follower_map u) hA hu
        (fun f hf => h.2 u f hf)
      by_cases h3 : A.filter (fun c => c ≠ u ∧ c ∉ st.follower_map u) = []
      · rw [if_pos h3]
        right
        have : (A.filter (fun c => c ≠ u ∧ c ∉ st.follower_map u)).length = 0 := by
          rw [h3]; rfl
        omega
      · rw [if_neg h3]
        have hk : min (targetC u - (st.follower_map u).card)
            (A.filter (fun c => c ≠ u ∧ c ∉ st.follower_map u)).length ≤
            (A.filter (fun c => c ≠ u ∧ c ∉ st.follower_map u)).length :=
          min_le_right _ _
        obtain ⟨hnd, hlen, hsub⟩ := hP u (A.filter (fun c => c ≠ u ∧ c ∉ st.follower_map u))
          (min (targetC u - (st.follower_map u).card)
            (A.filter (fun c => c ≠ u ∧ c ∉ st.follower_map u)).length)
          (hA.filter _) hk
        rw [padFold_card u _ st h.1 hnd (fun x hx => by
          have hmem := List.mem_filter.mp (hsub x hx)
          have hprops := hmem.2
          simp only [decide_eq_true_eq] at hprops
          exact hprops.2), hlen]
        omega
    · rw [if_neg h2]
      left
      omega

/-- Phase A establishes `FollowerBound` from the empty state: every follower
it records is one of the iterated population members, and the selection set
never contains the follower itself. -/
theorem phaseA_user_followerBound (A : List ℕ) (targetA : ℕ → ℕ)
    (batches : ℕ → ℕ → List ℕ) (st : GenState) (u : ℕ)
    (hu : u ∈ A) (h : FollowerBound A st) :
    FollowerBound A (phaseA_user targetA batches st u) := by
  unfold phaseA_user
  refine foldl_preserve_mem (FollowerBound A) _ _ (fun st2 b hb h2 => ?_) st h
  refine addRel_followerBound A u b st2 hu (fun he => ?_) h2
  subst he
  exact selectFollowees_not_self (batches u) u (targetA u) hb

theorem generate_followers_first_followerBound (segs : List (String × List ℕ))
    (targetA : ℕ → ℕ) (batches : ℕ → ℕ → List ℕ) (s : GenState)
    (h : FollowerBound (allUsersOf segs) s) :
    FollowerBound (allUsersOf segs) (generate_followers_first segs targetA batches s) :=
  foldl_preserve_mem (FollowerBound (allUsersOf segs)) _ _
    (fun st u hu h2 => phaseA_user_followerBound (allUsersOf segs) targetA batches st u hu h2)
    s h

theorem phaseB_user_followerBound (A : List ℕ) (m : ℕ) (targetB : ℕ → ℕ)
    (sampleB : ℕ → List ℕ → ℕ → List ℕ) (st : GenState) (u : ℕ)
    (h : FollowerBound A st) :
    FollowerBound A (phaseB_user m targetB sampleB st u) := by
  unfold phaseB_user
  dsimp only
  split
  · split
    · exact foldl_preserve (FollowerBound A) _
        (fun st2 b h2 => removeRel_followerBound A u b st2 h2) _ st h
    · exact h
  · exact h

theorem enforce_following_limits_followerBound (segs : List (String × List ℕ))
    (seg : UserSegmentation) (targetB : ℕ → ℕ) (sampleB : ℕ → List ℕ → ℕ → List ℕ)
    (A : List ℕ) (s : GenState) (h : FollowerBound A s) :
    FollowerBound A (enforce_following_limits segs seg targetB sampleB s) :=
  foldl_preserve (FollowerBound A) _
    (fun st p hst => foldl_preserve (FollowerBound A) _
      (fun st2 u h2 => phaseB_user_followerBound A _ targetB sampleB st2 u h2) _ st hst)
    _ s h

theorem phaseC_fold_frame (A : List ℕ) (targetC : ℕ → ℕ)
    (sT sP : ℕ → List ℕ → ℕ → List ℕ) (v : ℕ) :
    ∀ (L : List ℕ) (st : GenState), v ∉ L →
      ((L.foldl (phaseC_user A targetC sT sP) st).follower_map v = st.follower_map v) := by
  intro L
  induction L with
  | nil => intro st _; rfl
  | cons w ws ih =>
    intro st hv
    rw [List.foldl_cons, ih _ (fun hm => hv (List.mem_cons_of_mem _ hm)),
      phaseC_user_follower_frame A targetC sT sP st w v
        (fun he => hv (by rw [he]; exact List.mem_cons_self _ _))]

theorem phaseC_users_fold (A : List ℕ) (targetC : ℕ → ℕ)
    (sT sP : ℕ → List ℕ → ℕ → List ℕ) (hA : A.Nodup)
    (hT : SampleOracle sT) (hP : SampleOracle sP) :
    ∀ (L : List ℕ) (st : GenState), L.Nodup → (∀ x ∈ L, x ∈ A) →
      Consistent st ∧ FollowerBound A st →
      (Consistent (L.foldl (phaseC_user A targetC sT sP) st) ∧
        FollowerBound A (L.foldl (phaseC_user A targetC sT sP) st)) ∧
      ∀ u ∈ L,
        ((L.foldl (phaseC_user A targetC sT sP) st).follower_map u).card = targetC u ∨
        (((L.foldl (phaseC_user A targetC sT sP) st).follower_map u).card = A.length - 1 ∧
          ((L.foldl (phaseC_user A targetC sT sP) st).follower_map u).card < targetC u) := by
  intro L
  induction L with
  | nil =>
    intro st _ _ h
    exact ⟨h, fun u hu => absurd hu (List.not_mem_nil u)⟩
  | cons v vs ih =>
    intro st hnd hsubA h
    have hnd' := List.nodup_cons.mp hnd
    have hst' := phaseC_user_inv A targetC sT sP hA hP st v h
    obtain ⟨hinv2, hposts⟩ := ih (phaseC_user A targetC sT sP st v) hnd'.2
      (fun x hx => hsubA x (List.mem_cons_of_mem _ hx)) hst'
    have hframe := phaseC_fold_frame A targetC sT sP v vs
      (phaseC_user A targetC sT sP st v) hnd'.1
    have hpostv := phaseC_user_post A targetC sT sP hT hP st v hA
      (hsubA v (List.mem_cons_self _ _)) h
    rw [List.foldl_cons]
    refine ⟨hinv2, fun u hu => ?_⟩
    rcases List.mem_cons.mp hu with rfl | hu'
    · rw [hframe]
      exact hpostv
    · exact hposts u hu'

/-- The per-tier step of Phase C (skip unrecognized tiers, then visit each
user of the tier). -/
def tierStepC (A : List ℕ) (seg : UserSegmentation) (targetC : ℕ → ℕ)
    (sT sP : ℕ → List ℕ → ℕ → List ℕ) (st : GenState) (p : String × List ℕ) : GenState :=
  if seg.get_follower_range p.1 = (0, 0) then st
  else p.2.foldl (phaseC_user A targetC sT sP) st

theorem ensure_eq_foldl (segs : List (String × List ℕ)) (seg : UserSegmentation)
    (targetC : ℕ → ℕ) (sT sP : ℕ → List ℕ → ℕ → List ℕ) (s : GenState) :
    ensure_minimum_followers segs seg targetC sT sP s =
      segs.foldl (tierStepC (allUsersOf segs) seg targetC sT sP) s := rfl

theorem allUsersOf_cons (p : String × List ℕ) (ps : List (String × List ℕ)) :
    allUsersOf (p :: ps) = p.2 ++ allUsersOf ps := by
  simp [allUsersOf]

theorem mem_allUsersOf (segs : List (String × List ℕ)) (p : String × List ℕ)
    (x : ℕ) (hp : p ∈ segs) (hx : x ∈ p.2) : x ∈ allUsersOf segs := by
  unfold allUsersOf
  exact List.mem_flatten.mpr ⟨p.2, List.mem_map_of_mem Prod.snd hp, hx⟩

theorem tierStepC_frame (A : List ℕ) (seg : UserSegmentation) (targetC : ℕ → ℕ)
    (sT sP : ℕ → List ℕ → ℕ → List ℕ) (v : ℕ) (p : String × List ℕ) (st : GenState)
    (hv : v ∉ p.2) :
    (tierStepC A seg targetC sT sP st p).follower_map v = st.follower_map v := by
  unfold tierStepC
  split
  · rfl
  · exact phaseC_fold_frame A targetC sT sP v p.2 st hv

theorem phaseC_tiersFold_frame (A : List ℕ) (seg : UserSegmentation) (targetC : ℕ → ℕ)
    (sT sP : ℕ → List ℕ → ℕ → List ℕ) (v : ℕ) :
    ∀ (tiers : List (String × List ℕ)) (st : GenState), v ∉ allUsersOf tiers →
      ((tiers.foldl (tierStepC A seg targetC sT sP) st).follower_map v =
        st.follower_map v) := by
  intro tiers
  induction tiers with
  | nil => intro st _; rfl
  | cons p ps ih =>
    intro st hv
    rw [allUsersOf_cons, List.mem_append] at hv
    push_neg at hv
    rw [List.foldl_cons, ih _ hv.2, tierStepC_frame A seg targetC sT sP v p st hv.1]

theorem tierStepC_inv (A : List ℕ) (seg : UserSegmentation) (targetC : ℕ → ℕ)
    (sT sP : ℕ → List ℕ → ℕ → List ℕ) (hA : A.Nodup) (hP : SampleOracle sP)
    (st : GenState) (p : String × List ℕ) (h : Consistent st ∧ FollowerBound A st) :
    Consistent (tierStepC A seg targetC sT sP st p) ∧
      FollowerBound A (tierStepC A seg targetC sT sP st p) := by
  unfold tierStepC
  split
  · exact h
  · exact foldl_preserve (fun st2 => Consistent st2 ∧ FollowerBound A st2) _
      (fun st2 u h2 => phaseC_user_inv A targetC sT sP hA hP st2 u h2) _ st h

theorem phaseC_tiers_fold (A : List ℕ) (seg : UserSegmentation) (targetC : ℕ → ℕ)
    (sT sP : ℕ → List ℕ → ℕ → List ℕ) (hA : A.Nodup)
    (hT : SampleOracle sT) (hP : SampleOracle sP) :
    ∀ (tiers : List (String × List ℕ)) (st : GenState),
      (allUsersOf tiers).Nodup → (∀ p ∈ tiers, ∀ x ∈ p.2, x ∈ A) →
      Consistent st ∧ FollowerBound A st →
      (Consistent (tiers.foldl (tierStepC A seg targetC sT sP) st) ∧
        FollowerBound A (tiers.foldl (tierStepC A seg targetC sT sP) st)) ∧
      ∀ p ∈ tiers, seg.get_follower_range p.1 ≠ (0, 0) → ∀ u ∈ p.2,
        ((tiers.foldl (tierStepC A seg targetC sT sP) st).follower_map u).card =
            targetC u ∨
        (((tiers.foldl (tierStepC A seg targetC sT sP) st).follower_map u).card =
            A.length - 1 ∧
          ((tiers.foldl (tierStepC A seg targetC sT sP) st).follower_map u).card <
            targetC u) := by
  intro tiers
  induction tiers with
  | nil =>
    intro st _ _ h
    exact ⟨h, fun p hp => absurd hp (List.not_mem_nil p)⟩
  | cons p ps ih =>
    intro st hnodflat hsubA h
    rw [allUsersOf_cons] at hnodflat
    rcases List.nodup_append.mp hnodflat with ⟨hnodp, hnodps, hdisj⟩
    rw [List.foldl_cons]
    by_cases hr : seg.get_follower_range p.1 = (0, 0)
    · have hstep : tierStepC A seg targetC sT sP st p = st := by
        unfold tierStepC
        rw [if_pos hr]
      rw [hstep]
      obtain ⟨hinv2, hposts⟩ := ih st hnodps
        (fun q hq x hx => hsubA q (List.mem_cons_of_mem _ hq) x hx) h
      refine ⟨hinv2, fun q hq hqr u hu => ?_⟩
      rcases List.mem_cons.mp hq with rfl | hq'
      · exact absurd hr hqr
      · exact hposts q hq' hqr u hu
    · have hstep : tierStepC A seg targetC sT sP st p =
          p.2.foldl (phaseC_user A targetC sT sP) st := by
        unfold tierStepC
        rw [if_neg hr]
      obtain ⟨hinv1, hposts1⟩ := phaseC_users_fold A targetC sT sP hA hT hP p.2 st hnodp
        (fun x hx => hsubA p (List.mem_cons_self _ _) x hx) h
      rw [hstep]
      obtain ⟨hinv2, hposts2⟩ := ih (p.2.foldl (phaseC_user A targetC sT sP) st) hnodps
        (fun q hq x hx => hsubA q (List.mem_cons_of_mem _ hq) x hx) hinv1
      refine ⟨hinv2, fun q hq hqr u hu => ?_⟩
      rcases List.mem_cons.mp hq with rfl | hq'
      · have hframe := phaseC_tiersFold_frame A seg targetC sT sP u ps
          (q.2.foldl (phaseC_user A targetC sT sP) st) (fun hm => hdisj hu hm)
        rw [hframe]
        exact hposts1 u hu
      · exact hposts2 q hq' hqr u hu

/-- C4: after `ensure_minimum_followers`, (1) every user of a recognized tier
whose follower range (min, max) is feasible (min ≤ totalUsers − 1) ends with
a follower count inside [min, max] --- the drawn target when it is reachable,
and otherwise exactly population − 1, which the feasibility bound keeps at or
above min and the missed target keeps below max; and (2) every user of the
population ends with at most totalUsers − 1 followers, whatever its nominal
range claims.  The oracles satisfy the `randint`/`random.sample` contracts;
the population (the flattened tier lists) is duplicate-free and of size
totalUsers; the starting state is consistent with followers drawn from the
population, as Phases A and B guarantee. -/
theorem ensure_minimum_followers_post (segs : List (String × List ℕ))
    (seg : UserSegmentation) (targetC : ℕ → ℕ) (sT sP : ℕ → List ℕ → ℕ → List ℕ)
    (s : GenState)
    (hA : (allUsersOf segs).Nodup)
    (hlen : (allUsersOf segs).length = seg.total_users)
    (hc : Consistent s) (hb : FollowerBound (allUsersOf segs) s)
    (hT : SampleOracle sT) (hP : SampleOracle sP)
    (htgt : ∀ p ∈ segs, ∀ u ∈ p.2, (seg.get_follower_range p.1).1 ≤ targetC u ∧
      targetC u ≤ (seg.get_follower_range p.1).2) :
    ∀ p ∈ segs, ∀ u ∈ p.2,
      (seg.get_follower_range p.1 ≠ (0, 0) →
        (seg.get_follower_range p.1).1 ≤ seg.total_users - 1 →
        (seg.get_follower_range p.1).1 ≤
            ((ensure_minimum_followers segs seg targetC sT sP s).follower_map u).card ∧
          ((ensure_minimum_followers segs seg targetC sT sP s).follower_map u).card ≤
            (seg.get_follower_range p.1).2) ∧
      ((ensure_minimum_followers segs seg targetC sT sP s).follower_map u).card ≤
        seg.total_users - 1 := by
  intro p hp u hu
  obtain ⟨⟨hcons, hbound⟩, hposts⟩ := phaseC_tiers_fold (allUsersOf segs) seg targetC
    sT sP hA hT hP segs s hA (fun q hq x hx => mem_allUsersOf segs q x hq hx) ⟨hc, hb⟩
  rw [ensure_eq_foldl]
  have huA : u ∈ allUsersOf segs := mem_allUsersOf segs p u hp hu
  have hle := follower_card_le (allUsersOf segs) _ u hA huA hbound
  constructor
  · intro hne hfeas
    have hpost := hposts p hp hne u hu
    have ht := htgt p hp u hu
    rcases hpost with heq | ⟨heq, hlt⟩
    · omega
    · omega
  · omega

/-- C4 witness: a one-user population in the "small" tier; the feasibility
premise is vacuous there and the count stays at most population − 1 = 0. -/
theorem ensure_minimum_followers_post_witness :
    ((ensure_minimum_followers [("small", [1])] (UserSegmentation.mk 1) (fun _ => 10)
        (fun _ pool k => pool.take k) (fun _ pool k => pool.take k)
        emptyState).follower_map 1).card ≤ (UserSegmentation.mk 1).total_users - 1 :=
  (ensure_minimum_followers_post [("small", [1])] (UserSegmentation.mk 1) (fun _ => 10)
    (fun _ pool k => pool.take k) (fun _ pool k => pool.take k) emptyState
    (by simp [allUsersOf]) (by simp [allUsersOf]) empty_consistent
    (empty_followerBound _) takeSample_spec takeSample_spec
    (fun p hp u hu => by
      have hpeq : p = ("small", [1]) := by simpa using hp
      subst hpeq
      rw [follower_range_small]
      norm_num)
    ("small", [1]) (by simp) 1 (by simp)).2

end SocialGraph
